import Mathlib

/-!
# Verification of the Hybrid RAG system's core algorithms

A shallow embedding, in Lean 4, of the algorithmic core of the
Hybrid_RAG_System_on_Wiki_Indian_History repository:

* `src/rrf_fusion.py` — Reciprocal Rank Fusion of two ranked lists;
* `evaluation/metrics.py` — the evaluation metrics engine (MRR, error
  taxonomy, LLM-judge score parsing, confidence calibration);
* `evaluation/evaluation_pipeline.py` — the record assembly step that feeds
  the metrics engine.

Modelling conventions:

* Python floats (numpy arithmetic) are modelled with `ℚ`; every numeric
  fact proved below is exact, which is the arithmetic the repository's own
  worked examples (`1/61`, `1/62 + 1/61`, …) are stated in.
* Python dicts that are only ever iterated in insertion order are modelled
  as association lists that preserve insertion order (`rrfUpdate` below).
* Python's stable `sorted(..., reverse=True)` is modelled by a stable
  descending insertion sort (`sortDesc`): any two stable sorts on the same
  key agree elementwise, so this is extensionally the same function.
* External collaborators (the SentenceTransformer embedder with sklearn's
  `cosine_similarity`, and the Flan-T5 judge model) are inputs of the
  model: an `Evaluator` carries `sim`, the cosine similarity of a pair of
  embedded strings, and `judge`, the prompt → completion map of the judge
  LLM.
-/

namespace RagSpec

/-! ## `src/rrf_fusion.py` — `reciprocal_rank_fusion`

Python source:
```
rrf_scores = {}
for rank, (chunk, _) in enumerate(dense_results, 1):
    if chunk not in rrf_scores:
        rrf_scores[chunk] = 0
    rrf_scores[chunk] += 1 / (k + rank)
for rank, (chunk, _) in enumerate(sparse_results, 1):
    if chunk not in rrf_scores:
        rrf_scores[chunk] = 0
    rrf_scores[chunk] += 1 / (k + rank)
sorted_chunks = sorted(rrf_scores.items(), key=lambda x: x[1], reverse=True)
return sorted_chunks[:top_n]
```
-/

/-- One dict update `rrf_scores[chunk] += v` (with the `if chunk not in
rrf_scores: rrf_scores[chunk] = 0` initialisation folded in).  A Python dict
keeps first-insertion order, so an existing key is updated in place and a
new key is appended at the end. -/
def rrfUpdate (scores : List (String × ℚ)) (chunk : String) (v : ℚ) :
    List (String × ℚ) :=
  if chunk ∈ scores.map Prod.fst then
    scores.map (fun p => if p.1 = chunk then (p.1, p.2 + v) else p)
  else
    scores ++ [(chunk, v)]

/-- `for rank, (chunk, _) in enumerate(results, 1): ... += 1 / (k + rank)`:
fold one retrieval result list into the accumulator, `rank` starting at 1. -/
def rrfAccum (k : ℚ) : List (String × ℚ) → ℕ → List (String × ℚ) → List (String × ℚ)
  | scores, _, [] => scores
  | scores, rank, (chunk, _) :: rest =>
      rrfAccum k (rrfUpdate scores chunk (1 / (k + (rank : ℚ)))) (rank + 1) rest

/-- Insert one scored chunk into a list that is (descending) sorted by
score: it goes after every entry with a strictly greater score and before
the first entry with a score `≤` its own.  `sortDesc` below inserts the
elements back-to-front, so placing each element before equal-scored ones
(which all come later in the original list) is exactly what makes the sort
stable, like Python's `sorted`. -/
def insertDesc (x : String × ℚ) : List (String × ℚ) → List (String × ℚ)
  | [] => [x]
  | y :: ys => if y.2 > x.2 then y :: insertDesc x ys else x :: y :: ys

/-- Stable descending sort by score: the model of Python's stable
`sorted(items, key=lambda x: x[1], reverse=True)`. -/
def sortDesc : List (String × ℚ) → List (String × ℚ)
  | [] => []
  | x :: xs => insertDesc x (sortDesc xs)

/-- `reciprocal_rank_fusion(dense_results, sparse_results, k=60, top_n=10)`. -/
def reciprocal_rank_fusion (dense_results sparse_results : List (String × ℚ))
    (k : ℚ := 60) (top_n : ℕ := 10) : List (String × ℚ) :=
  let scores := rrfAccum k (rrfAccum k [] 1 dense_results) 1 sparse_results
  (sortDesc scores).take top_n

/-- The accumulated association list, before sorting and truncation. -/
def rrfScores (dense_results sparse_results : List (String × ℚ)) (k : ℚ) :
    List (String × ℚ) :=
  rrfAccum k (rrfAccum k [] 1 dense_results) 1 sparse_results

/-- First-insertion order of a stream of content values: every content in
stream order, keeping only its first occurrence. -/
def firstSeenOrder (l : List String) : List String :=
  l.foldl (fun acc c => if c ∈ acc then acc else acc ++ [c]) []

/-! ## `evaluation/metrics.py` — data model

A retrieved chunk carries metadata; `mean_reciprocal_rank` and
`error_analysis` read `chunk['url']`.  A batch record carries the fields
the metrics engine reads: `retrieved_chunks`, `ground_truth_url`,
`answer`, `ground_truth`, `query`, `category`.  `category` is one of the
four keys of `error_analysis`'s `category_errors` dict (any other value
raises a `KeyError` in Python and is outside the model). -/

structure Chunk where
  url : String
  text : String
  deriving DecidableEq

inductive QCategory
  | factual
  | comparative
  | inferential
  | multiHop
  deriving DecidableEq

structure EvalRecord where
  retrieved_chunks : List Chunk
  ground_truth_url : String
  answer : String
  ground_truth : String
  query : String
  category : QCategory
  deriving DecidableEq

/-- The `Evaluator`'s two external collaborators: `sim a b` is the cosine
similarity of the SentenceTransformer embeddings of `a` and `b` (the code
computes it as `cosine_similarity(embedder.encode(xs), embedder.encode(ys))`
entrywise on the diagonal), and `judge p` is the completion
`judge_llm.generate(p, ...)` of the Flan-T5 judge model on prompt `p`. -/
structure Evaluator where
  sim : String → String → ℚ
  judge : String → String

/-- `np.mean` of a list; on an empty list numpy yields `nan` with a
warning, which this ℚ model renders as `0` (`0 / 0 = 0` in `ℚ`). -/
def listMean (l : List ℚ) : ℚ := l.sum / (l.length : ℚ)

/-! ## `Evaluator.mean_reciprocal_rank` -/

/-- The reciprocal-rank contribution of one record: `1/rank` where `rank`
is `retrieved_urls.index(ground_truth_url) + 1` when the ground-truth URL
occurs, else `0`. -/
def recordRR (result : EvalRecord) : ℚ :=
  let retrieved_urls := result.retrieved_chunks.map Chunk.url
  if result.ground_truth_url ∈ retrieved_urls then
    1 / ((retrieved_urls.indexOf result.ground_truth_url : ℚ) + 1)
  else 0

/-- `mean_reciprocal_rank`: the accumulation loop, then
`rr_sum / len(results) if results else 0`. -/
def mean_reciprocal_rank (results : List EvalRecord) : ℚ :=
  let rr_sum := results.foldl
    (fun rr_sum result =>
      let retrieved_urls := result.retrieved_chunks.map Chunk.url
      if result.ground_truth_url ∈ retrieved_urls then
        rr_sum + 1 / ((retrieved_urls.indexOf result.ground_truth_url : ℚ) + 1)
      else rr_sum) 0
  if results.isEmpty then 0 else rr_sum / (results.length : ℚ)

/-! ## `Evaluator.semantic_similarity` and `Evaluator.answer_relevance` -/

/-- `semantic_similarity`: mean of the diagonal of the pairwise cosine
matrix, i.e. the mean of the per-pair similarities. `none` models the
call failing: sklearn's `cosine_similarity` raises `ValueError` when an
input array has zero samples, so an empty batch never returns a number. -/
def semantic_similarity (ev : Evaluator) (generated_answers ground_truths : List String) :
    Option ℚ :=
  if generated_answers.isEmpty || ground_truths.isEmpty then none
  else some (listMean ((generated_answers.zip ground_truths).map (fun p => ev.sim p.1 p.2)))

/-- `answer_relevance`: same collaborator and same mean-of-pairs shape,
applied to answer/question pairs. -/
def answer_relevance (ev : Evaluator) (answers questions : List String) : Option ℚ :=
  if answers.isEmpty || questions.isEmpty then none
  else some (listMean ((answers.zip questions).map (fun p => ev.sim p.1 p.2)))

/-! ## `Evaluator.error_analysis` -/

inductive ErrKind
  | retrieval
  | generation
  | context
  | noError
  deriving DecidableEq

/-- The `if/elif/elif/else` chain of `error_analysis`, applied to one
record.  `sem_sim` is `semantic_similarity([answer], [ground_truth])` and
`rel` is `answer_relevance([answer], [query])`; on singleton batches both
equal one call of the similarity collaborator
(`semantic_similarity_singleton` below). -/
def classifyRecord (ev : Evaluator) (result : EvalRecord) : ErrKind :=
  let retrieved_urls := result.retrieved_chunks.map Chunk.url
  let sem_sim := ev.sim result.answer result.ground_truth
  let rel := ev.sim result.answer result.query
  if result.ground_truth_url ∉ retrieved_urls then ErrKind.retrieval
  else if sem_sim < 1 / 2 then ErrKind.generation
  else if rel < 1 / 2 then ErrKind.context
  else ErrKind.noError

/-- The `error_categories` dict. -/
structure ErrorCategories where
  retrieval_failure : ℕ
  generation_hallucination : ℕ
  context_irrelevant : ℕ
  no_error : ℕ
  deriving DecidableEq

/-- One row of the `category_errors` dict; `noneCnt` is the Python key
`'none'`. -/
structure CatErrors where
  retrieval : ℕ
  generation : ℕ
  context : ℕ
  noneCnt : ℕ
  deriving DecidableEq

structure ErrorAnalysisReport where
  overall : ErrorCategories
  by_category : QCategory → CatErrors

def bumpOverall (e : ErrorCategories) : ErrKind → ErrorCategories
  | ErrKind.retrieval => { e with retrieval_failure := e.retrieval_failure + 1 }
  | ErrKind.generation => { e with generation_hallucination := e.generation_hallucination + 1 }
  | ErrKind.context => { e with context_irrelevant := e.context_irrelevant + 1 }
  | ErrKind.noError => { e with no_error := e.no_error + 1 }

def bumpCat (c : CatErrors) : ErrKind → CatErrors
  | ErrKind.retrieval => { c with retrieval := c.retrieval + 1 }
  | ErrKind.generation => { c with generation := c.generation + 1 }
  | ErrKind.context => { c with context := c.context + 1 }
  | ErrKind.noError => { c with noneCnt := c.noneCnt + 1 }

/-- One iteration of `error_analysis`'s loop: classify the record and
increment the matching overall counter and the matching cell of its
question category's row. -/
def recordStep (ev : Evaluator) (acc : ErrorAnalysisReport) (result : EvalRecord) :
    ErrorAnalysisReport :=
  let kind := classifyRecord ev result
  { overall := bumpOverall acc.overall kind,
    by_category := fun c =>
      if c = result.category then bumpCat (acc.by_category c) kind else acc.by_category c }

def initErrorReport : ErrorAnalysisReport :=
  { overall := ⟨0, 0, 0, 0⟩, by_category := fun _ => ⟨0, 0, 0, 0⟩ }

def error_analysis (ev : Evaluator) (results : List EvalRecord) : ErrorAnalysisReport :=
  results.foldl (recordStep ev) initErrorReport

/-- Total of the four overall error-category counters. -/
def overallTotal (e : ErrorCategories) : ℕ :=
  e.retrieval_failure + e.generation_hallucination + e.context_irrelevant + e.no_error

/-- Total of the four cells of one question category's row. -/
def catCellsTotal (c : CatErrors) : ℕ :=
  c.retrieval + c.generation + c.context + c.noneCnt

/-- Total over all 16 cells of the per-question-category breakdown. -/
def byCategoryTotal (f : QCategory → CatErrors) : ℕ :=
  catCellsTotal (f QCategory.factual) + catCellsTotal (f QCategory.comparative) +
    catCellsTotal (f QCategory.inferential) + catCellsTotal (f QCategory.multiHop)

/-! ## `Evaluator.llm_as_judge`

The response parsing of `llm_as_judge`.  Python string primitives are
re-implemented over `List Char` so every step is executable in the
kernel: `str.strip`, `str.split('\n')`, `' '.join`, `re.findall(r'\d+', s)`
and `int(...)` (ASCII digits; the difference with Python's Unicode `\d`
and Unicode whitespace is immaterial here). -/

/-- The whitespace `str.strip()` removes. -/
def pyIsSpace (c : Char) : Bool :=
  c = ' ' || c = '\t' || c = '\n' || c = '\r' || c = '\x0b' || c = '\x0c'

/-- Python `s.strip()`. -/
def pyStrip (s : String) : String :=
  String.mk (((s.data.dropWhile pyIsSpace).reverse.dropWhile pyIsSpace).reverse)

def splitLinesAux : List Char → List Char → List String
  | [], cur => [String.mk cur.reverse]
  | c :: rest, cur =>
    if c = '\n' then String.mk cur.reverse :: splitLinesAux rest []
    else splitLinesAux rest (c :: cur)

/-- Python `s.split('\n')`: always at least one piece, empty pieces kept. -/
def splitLines (s : String) : List String := splitLinesAux s.data []

def natOfDigits (cs : List Char) : ℕ :=
  cs.foldl (fun n c => 10 * n + (c.toNat - 48)) 0

def digitRunsAux : List Char → List Char → List (List Char)
  | [], cur => if cur.isEmpty then [] else [cur.reverse]
  | c :: rest, cur =>
    if c.isDigit then digitRunsAux rest (c :: cur)
    else if cur.isEmpty then digitRunsAux rest []
    else cur.reverse :: digitRunsAux rest []

/-- Python `[int(m) for m in re.findall(r'\d+', s)]`: the maximal runs of
decimal digits of `s`, as numbers. -/
def findallNums (s : String) : List ℕ := (digitRunsAux s.data []).map natOfDigits

/-- Python `' '.join(pieces)`. -/
def joinWith (sep : String) : List String → String
  | [] => ""
  | x :: xs => xs.foldl (fun acc y => acc ++ sep ++ y) x

/-- The judge prompt built for one record (the f-string of `llm_as_judge`). -/
def judgePrompt (result : EvalRecord) : String :=
  "Evaluate the following answer on a scale of 1-5 for each criterion. Provide scores and brief explanation.\n\nQuestion: "
    ++ result.query ++ "\nAnswer: " ++ result.answer ++ "\nGround Truth: "
    ++ result.ground_truth
    ++ "\n\nCriteria:\n- Factual Accuracy: How factually correct is the answer?\n- Completeness: How complete is the answer?\n- Relevance: How relevant is the answer to the question?\n- Coherence: How coherent and well-structured is the answer?\n\nOutput format: Factual: X, Completeness: X, Relevance: X, Coherence: X\nExplanation: ..."

/-- `self.judge_llm.generate(prompt, ...).strip()`. -/
def judgeResponse (ev : Evaluator) (result : EvalRecord) : String :=
  pyStrip (ev.judge (judgePrompt result))

structure JudgeParse where
  scores : ℕ × ℕ × ℕ × ℕ
  explanation : String
  deriving DecidableEq

/-- The per-record parsing of the judge's free-text evaluation: first line
is the score line, the remaining lines joined by `' '` are the
explanation; if the score line holds at least four numeric tokens the
first four are the four criteria scores in order, otherwise every
criterion defaults to `3` while the explanation is still `exp_line`.  (The
Python `except` handler, which would record the sentinel `"Parsing
failed"`, is unreachable for this total parsing: `split`, `join`,
`re.findall` and `int` on digit runs cannot raise.) -/
def parseJudgeEvaluation (evaluation : String) : JudgeParse :=
  let lines := splitLines evaluation
  let score_line := lines.headD ""
  let exp_line := if 1 < lines.length then joinWith " " (lines.drop 1) else ""
  match findallNums score_line with
  | n0 :: n1 :: n2 :: n3 :: _ => { scores := (n0, n1, n2, n3), explanation := exp_line }
  | _ => { scores := (3, 3, 3, 3), explanation := exp_line }

/-- `np.mean` of integer scores. -/
def natListMean (l : List ℕ) : ℚ := (l.map (fun n => (n : ℚ))).sum / (l.length : ℚ)

structure JudgeReport where
  factual_accuracy : List ℕ
  completeness : List ℕ
  relevance : List ℕ
  coherence : List ℕ
  explanations : List String
  average_scores : ℚ × ℚ × ℚ × ℚ

def llm_as_judge (ev : Evaluator) (results : List EvalRecord) : JudgeReport :=
  let parses := results.map (fun r => parseJudgeEvaluation (judgeResponse ev r))
  let fa := parses.map (fun p => p.scores.1)
  let comp := parses.map (fun p => p.scores.2.1)
  let rel := parses.map (fun p => p.scores.2.2.1)
  let coh := parses.map (fun p => p.scores.2.2.2)
  { factual_accuracy := fa
    completeness := comp
    relevance := rel
    coherence := coh
    explanations := parses.map JudgeParse.explanation
    average_scores := (natListMean fa, natListMean comp, natListMean rel, natListMean coh) }

/-! ## `Evaluator.confidence_calibration`

`np.linspace(0, 1, 11)` gives bin edges `i/10`; record `j` falls in bin
`i` iff `bins[i] <= conf_j < bins[i+1]`. -/

/-- Per-record confidence: `(sem_sim + rel) / 2`, unclamped. -/
def recordConfidence (ev : Evaluator) (result : EvalRecord) : ℚ :=
  (ev.sim result.answer result.ground_truth + ev.sim result.answer result.query) / 2

/-- The mask `(confidences >= bins[i]) & (confidences < bins[i+1])` for one
confidence value. -/
def binMask (i : ℕ) (c : ℚ) : Bool :=
  decide ((i : ℚ) / 10 ≤ c) && decide (c < ((i : ℚ) + 1) / 10)

/-- One iteration of the ECE loop: an empty bin contributes `0`, a
populated bin contributes `|avg_conf - avg_acc| * (population / total)`. -/
def binTerm (pairs : List (ℚ × ℚ)) (total : ℕ) (i : ℕ) : ℚ :=
  let sel := pairs.filter (fun p => binMask i p.1)
  if sel.length = 0 then 0
  else |listMean (sel.map Prod.fst) - listMean (sel.map Prod.snd)| *
    ((sel.length : ℚ) / (total : ℚ))

/-- `ece`, accumulated over the ten bins `i = 0..9`. -/
def eceOf (pairs : List (ℚ × ℚ)) (total : ℕ) : ℚ :=
  ((List.range 10).map (binTerm pairs total)).sum

structure CalibrationReport where
  confidences : List ℚ
  correctness : List ℚ
  expected_calibration_error : ℚ
  mean_confidence : ℚ
  accuracy : ℚ

/-- `confidence_calibration`: per record, confidence is the unclamped mean
of the two similarities and correctness is `1` iff `sem_sim > 0.7`; then
the ECE loop.  (`mean_confidence`/`accuracy` of an empty batch are
numpy `nan`, rendered `0` by `listMean`.) -/
def confidence_calibration (ev : Evaluator) (results : List EvalRecord) :
    CalibrationReport :=
  let confidences := results.map (recordConfidence ev)
  let correctness := results.map
    (fun r => if 7 / 10 < ev.sim r.answer r.ground_truth then (1 : ℚ) else 0)
  { confidences := confidences
    correctness := correctness
    expected_calibration_error := eceOf (confidences.zip correctness) results.length
    mean_confidence := listMean confidences
    accuracy := listMean correctness }

/-! ## `evaluation/evaluation_pipeline.py` — record assembly

`run_evaluation` builds one record per QA item: the RAG answer for the
question, the QA item's annotations, and
`[{'url': 'placeholder', 'text': chunk} for chunk in result['context_chunks']]`
as the retrieved chunks. -/

structure QAItem where
  question : String
  ground_truth : String
  source_url : String
  category : QCategory
  deriving DecidableEq

/-- The part of `HybridRAG.answer_query`'s result dict the evaluation
reads (`answer`, `context_chunks`); the RAG system itself is an external
collaborator of this model. -/
structure RagAnswer where
  answer : String
  context_chunks : List String
  deriving DecidableEq

def buildEvalRecord (qa : QAItem) (res : RagAnswer) : EvalRecord :=
  { query := qa.question
    answer := res.answer
    ground_truth := qa.ground_truth
    ground_truth_url := qa.source_url
    category := qa.category
    retrieved_chunks := res.context_chunks.map (fun chunk => { url := "placeholder", text := chunk }) }

/-- The batch `run_evaluation` hands to `Evaluator.evaluate`. -/
def runEvaluationRecords (rag : String → RagAnswer) (qa_data : List QAItem) :
    List EvalRecord :=
  qa_data.map (fun qa => buildEvalRecord qa (rag qa.question))

/-! ## Concrete instances used by closed statements -/

/-- A record with empty/dummy fields. -/
def sampleRecord : EvalRecord :=
  { retrieved_chunks := [⟨"http://example.org/a", "text a"⟩]
    ground_truth_url := "http://example.org/a"
    answer := "an answer"
    ground_truth := "a ground truth"
    query := "a question"
    category := QCategory.factual }

/-- Collaborators returning constant `0` similarity and an empty judge
completion. -/
def evZero : Evaluator := { sim := fun _ _ => 0, judge := fun _ => "" }

/-- A similarity collaborator pinned at `-1`, a value cosine similarity
can take (the repository's own comments state the score range is
`-1` to `1`). -/
def evNegOne : Evaluator := { sim := fun _ _ => -1, judge := fun _ => "" }

/-- A similarity collaborator pinned at `1/2`. -/
def evHalf : Evaluator := { sim := fun _ _ => 1 / 2, judge := fun _ => "" }

/-- A judge whose completion has no numeric token on its first line. -/
def evProse : Evaluator :=
  { sim := fun _ _ => 0, judge := fun _ => "no numeric scores at all\nbecause the output was prose" }

/-- A judge whose completion carries four numeric scores on its first
line. -/
def evScored : Evaluator :=
  { sim := fun _ _ => 0
    judge := fun _ => "Factual: 4, Completeness: 5, Relevance: 3, Coherence: 2\nExplanation: well grounded" }

/-- The confidence/correctness pairs the ECE loop masks over. -/
def calibPairs (ev : Evaluator) (results : List EvalRecord) : List (ℚ × ℚ) :=
  (confidence_calibration ev results).confidences.zip
    (confidence_calibration ev results).correctness

/-- A QA item whose source URL is a real URL (not `'placeholder'`). -/
def qaSample : QAItem :=
  { question := "What is X?"
    ground_truth := "X is Y"
    source_url := "http://example.org/x"
    category := QCategory.factual }

/-- A RAG collaborator returning a fixed answer with two context chunks. -/
def ragSample : String → RagAnswer :=
  fun _ => { answer := "an answer", context_chunks := ["chunk one", "chunk two"] }

/-! ### Lemmas about the stable descending sort -/

lemma insertDesc_perm (x : String × ℚ) (l : List (String × ℚ)) :
    (insertDesc x l).Perm (x :: l) := by
  induction l with
  | nil => exact List.Perm.refl _
  | cons y ys ih =>
    by_cases h : y.2 > x.2
    · rw [insertDesc, if_pos h]
      exact (ih.cons y).trans (List.Perm.swap x y ys)
    · rw [insertDesc, if_neg h]

lemma sortDesc_perm (l : List (String × ℚ)) : (sortDesc l).Perm l := by
  induction l with
  | nil => exact List.Perm.refl _
  | cons x xs ih => exact (insertDesc_perm x (sortDesc xs)).trans (ih.cons x)

lemma insertDesc_pairwise (x : String × ℚ) (l : List (String × ℚ))
    (hl : l.Pairwise (fun p q => q.2 ≤ p.2)) :
    (insertDesc x l).Pairwise (fun p q => q.2 ≤ p.2) := by
  induction l with
  | nil => simp [insertDesc]
  | cons y ys ih =>
    rw [List.pairwise_cons] at hl
    by_cases h : y.2 > x.2
    · rw [insertDesc, if_pos h]
      refine List.pairwise_cons.2 ⟨?_, ih hl.2⟩
      intro b hb
      rcases List.mem_cons.1 ((insertDesc_perm x ys).mem_iff.1 hb) with hb | hb
      · exact hb ▸ le_of_lt h
      · exact hl.1 b hb
    · rw [insertDesc, if_neg h]
      refine List.pairwise_cons.2 ⟨?_, List.pairwise_cons.2 hl⟩
      intro b hb
      rcases List.mem_cons.1 hb with hb | hb
      · exact hb ▸ not_lt.1 h
      · exact (hl.1 b hb).trans (not_lt.1 h)

lemma sortDesc_pairwise (l : List (String × ℚ)) :
    (sortDesc l).Pairwise (fun p q => q.2 ≤ p.2) := by
  induction l with
  | nil => simp [sortDesc]
  | cons x xs ih => exact insertDesc_pairwise x (sortDesc xs) ih

/-- Stability of the insertion step: the entries holding any fixed score `s`
are preserved, with the inserted element in front of equal-scored ones. -/
lemma filter_insertDesc (x : String × ℚ) (l : List (String × ℚ)) (s : ℚ) :
    (insertDesc x l).filter (fun p => decide (p.2 = s)) =
      if x.2 = s then x :: l.filter (fun p => decide (p.2 = s))
      else l.filter (fun p => decide (p.2 = s)) := by
  induction l with
  | nil => by_cases hx : x.2 = s <;> simp [insertDesc, hx]
  | cons y ys ih =>
    by_cases h : y.2 > x.2
    · rw [insertDesc, if_pos h]
      by_cases hx : x.2 = s
      · have hy : ¬ y.2 = s := fun hy => absurd (hx ▸ hy ▸ h) (lt_irrefl _)
        simp [List.filter_cons, hx, hy, ih]
      · by_cases hy : y.2 = s <;> simp [List.filter_cons, hx, hy, ih]
    · rw [insertDesc, if_neg h]
      by_cases hx : x.2 = s <;> simp [List.filter_cons, hx]

/-- Stability of `sortDesc`: for every score `s`, the subsequence of entries
scored `s` comes out of the sort exactly as it went in. -/
lemma filter_sortDesc (l : List (String × ℚ)) (s : ℚ) :
    (sortDesc l).filter (fun p => decide (p.2 = s)) =
      l.filter (fun p => decide (p.2 = s)) := by
  induction l with
  | nil => rfl
  | cons x xs ih =>
    rw [sortDesc, filter_insertDesc]
    by_cases hx : x.2 = s <;> simp [List.filter_cons, hx, ih]

/-! ### Lemmas about the accumulator -/

lemma rrfUpdate_keys (scores : List (String × ℚ)) (chunk : String) (v : ℚ) :
    (rrfUpdate scores chunk v).map Prod.fst =
      if chunk ∈ scores.map Prod.fst then scores.map Prod.fst
      else scores.map Prod.fst ++ [chunk] := by
  by_cases h : chunk ∈ scores.map Prod.fst
  · rw [rrfUpdate, if_pos h, if_pos h, List.map_map]
    congr 1
    funext p
    by_cases hp : p.1 = chunk <;> simp [hp]
  · rw [rrfUpdate, if_neg h, if_neg h]
    simp

lemma rrfAccum_keys (k : ℚ) (results : List (String × ℚ)) :
    ∀ (scores : List (String × ℚ)) (rank : ℕ),
      (rrfAccum k scores rank results).map Prod.fst =
        (results.map Prod.fst).foldl
          (fun ks c => if c ∈ ks then ks else ks ++ [c]) (scores.map Prod.fst) := by
  induction results with
  | nil => intro scores rank; rfl
  | cons r rest ih =>
    intro scores rank
    obtain ⟨chunk, sc⟩ := r
    rw [rrfAccum, ih, List.map_cons, List.foldl_cons, rrfUpdate_keys]

/-- The key order of the accumulated dict is first-insertion order: all of
`dense_results`' contents in order, then the new contents of
`sparse_results` in order. -/
lemma rrfScores_keys (A B : List (String × ℚ)) (k : ℚ) :
    (rrfScores A B k).map Prod.fst =
      firstSeenOrder (A.map Prod.fst ++ B.map Prod.fst) := by
  rw [rrfScores, rrfAccum_keys, rrfAccum_keys, firstSeenOrder, List.foldl_append]
  rfl

lemma foldl_insert_nodup (l : List String) :
    ∀ init : List String, init.Nodup →
      (l.foldl (fun ks c => if c ∈ ks then ks else ks ++ [c]) init).Nodup := by
  induction l with
  | nil => intro init h; exact h
  | cons c rest ih =>
    intro init h
    rw [List.foldl_cons]
    by_cases hc : c ∈ init
    · rw [if_pos hc]; exact ih init h
    · rw [if_neg hc]
      exact ih _ (List.nodup_append.2 ⟨h, List.nodup_singleton c, by
        intro a ha hb
        rw [List.mem_singleton] at hb
        exact hc (hb ▸ ha)⟩)

lemma rrfScores_keys_nodup (A B : List (String × ℚ)) (k : ℚ) :
    ((rrfScores A B k).map Prod.fst).Nodup := by
  rw [rrfScores, rrfAccum_keys, rrfAccum_keys]
  exact foldl_insert_nodup _ _ (foldl_insert_nodup _ _ List.nodup_nil)

lemma rrfUpdate_nonneg (scores : List (String × ℚ)) (chunk : String) (v : ℚ)
    (hv : 0 ≤ v) (h : ∀ p ∈ scores, 0 ≤ p.2) :
    ∀ p ∈ rrfUpdate scores chunk v, 0 ≤ p.2 := by
  intro p hp
  rw [rrfUpdate] at hp
  by_cases hc : chunk ∈ scores.map Prod.fst
  · rw [if_pos hc] at hp
    obtain ⟨q, hq, rfl⟩ := List.mem_map.1 hp
    by_cases hq1 : q.1 = chunk
    · simpa [hq1] using add_nonneg (h q hq) hv
    · simpa [hq1] using h q hq
  · rw [if_neg hc] at hp
    rcases List.mem_append.1 hp with hp | hp
    · exact h p hp
    · rw [List.mem_singleton.1 hp]
      exact hv

lemma rrfAccum_nonneg (k : ℚ) (hk : 0 ≤ k) (results : List (String × ℚ)) :
    ∀ (scores : List (String × ℚ)) (rank : ℕ),
      (∀ p ∈ scores, 0 ≤ p.2) →
      ∀ p ∈ rrfAccum k scores rank results, 0 ≤ p.2 := by
  induction results with
  | nil => intro scores rank h; exact h
  | cons r rest ih =>
    intro scores rank h
    obtain ⟨chunk, sc⟩ := r
    rw [rrfAccum]
    refine ih _ _ (rrfUpdate_nonneg _ _ _ ?_ h)
    have : (0 : ℚ) ≤ k + (rank : ℚ) := add_nonneg hk (Nat.cast_nonneg rank)
    positivity

lemma reciprocal_rank_fusion_eq (A B : List (String × ℚ)) (k : ℚ) (n : ℕ) :
    reciprocal_rank_fusion A B k n = (sortDesc (rrfScores A B k)).take n := rfl

/-! ### The RRF claims -/

/-- C1: on `A = [(chunk1, 0.9), (chunk2, 0.8)]`,
`B = [(chunk2, 0.7), (chunk3, 0.6)]`, with `k = 60` and the default
`top_n`, `reciprocal_rank_fusion` returns exactly the three entries
`[chunk2, chunk1, chunk3]` in that order, with fused scores
`1/62 + 1/61`, `1/61` and `1/62`. -/
theorem C1_rrf_worked_example :
    reciprocal_rank_fusion [("chunk1", 9 / 10), ("chunk2", 8 / 10)]
        [("chunk2", 7 / 10), ("chunk3", 6 / 10)] =
      [("chunk2", 1 / 62 + 1 / 61), ("chunk1", 1 / 61), ("chunk3", 1 / 62)] := by
  simp only [reciprocal_rank_fusion, rrfAccum, rrfUpdate, sortDesc, insertDesc, List.map_cons,
    List.map_nil, List.mem_cons, List.mem_singleton, List.not_mem_nil, String.reduceEq]
  norm_num [insertDesc]

/-- C2: `reciprocal_rank_fusion` is deterministic (two calls on identical
inputs agree), the accumulated score map lists contents in first-insertion
order — all of `A`'s contents in order, then the contents first seen in
`B` — and, for every score value `s`, the output's entries scored `s` form
a subsequence of the accumulator's entries scored `s`: tied contents
appear in first-insertion order. -/
theorem C2_rrf_deterministic_tie_order (A B : List (String × ℚ)) (k : ℚ) (n : ℕ) :
    reciprocal_rank_fusion A B k n = reciprocal_rank_fusion A B k n ∧
    (rrfScores A B k).map Prod.fst =
      firstSeenOrder (A.map Prod.fst ++ B.map Prod.fst) ∧
    ∀ s : ℚ,
      ((reciprocal_rank_fusion A B k n).filter (fun p => decide (p.2 = s))).Sublist
        ((rrfScores A B k).filter (fun p => decide (p.2 = s))) := by
  refine ⟨rfl, rrfScores_keys A B k, fun s => ?_⟩
  rw [reciprocal_rank_fusion_eq, ← filter_sortDesc (rrfScores A B k) s]
  exact List.Sublist.filter _ (List.take_sublist n _)

/-- C9: for all inputs (at `k = 60`), the fused output has at most `top_n`
entries, no duplicate content, is ordered descending by fused score, all
fused scores are non-negative, and two empty inputs yield the empty
output. -/
theorem C9_rrf_output_invariants (A B : List (String × ℚ)) (n : ℕ) :
    (reciprocal_rank_fusion A B 60 n).length ≤ n ∧
    ((reciprocal_rank_fusion A B 60 n).map Prod.fst).Nodup ∧
    (reciprocal_rank_fusion A B 60 n).Pairwise (fun p q => q.2 ≤ p.2) ∧
    (∀ p ∈ reciprocal_rank_fusion A B 60 n, 0 ≤ p.2) ∧
    reciprocal_rank_fusion ([] : List (String × ℚ)) [] 60 n = [] := by
  have hperm := sortDesc_perm (rrfScores A B 60)
  refine ⟨?_, ?_, ?_, ?_, ?_⟩
  · rw [reciprocal_rank_fusion_eq, List.length_take]
    exact min_le_left _ _
  · rw [reciprocal_rank_fusion_eq, List.map_take]
    exact List.Nodup.sublist (List.take_sublist _ _)
      ((hperm.map Prod.fst).symm.nodup (rrfScores_keys_nodup A B 60))
  · rw [reciprocal_rank_fusion_eq]
    exact List.Pairwise.sublist (List.take_sublist _ _) (sortDesc_pairwise _)
  · intro p hp
    rw [reciprocal_rank_fusion_eq] at hp
    have hp2 : p ∈ rrfScores A B 60 :=
      hperm.mem_iff.1 (List.Sublist.mem hp (List.take_sublist _ _))
    refine rrfAccum_nonneg 60 (by norm_num) B _ 1 ?_ p hp2
    exact rrfAccum_nonneg 60 (by norm_num) A [] 1 (by intro q hq; cases hq)
  · rw [reciprocal_rank_fusion_eq]
    exact List.take_nil

/-! ### MRR lemmas -/

lemma foldl_add_eq (f : EvalRecord → ℚ) (step : ℚ → EvalRecord → ℚ)
    (hstep : ∀ a r, step a r = a + f r) :
    ∀ (l : List EvalRecord) (init : ℚ), l.foldl step init = init + (l.map f).sum := by
  intro l
  induction l with
  | nil => intro init; simp
  | cons r rest ih =>
    intro init
    rw [List.foldl_cons, hstep, ih, List.map_cons, List.sum_cons]
    ring

/-- The accumulation loop of `mean_reciprocal_rank` sums the per-record
reciprocal ranks. -/
lemma mean_reciprocal_rank_eq (results : List EvalRecord) :
    mean_reciprocal_rank results =
      if results.isEmpty then 0
      else (results.map recordRR).sum / (results.length : ℚ) := by
  rw [mean_reciprocal_rank,
    foldl_add_eq recordRR _ (fun a r => by
      show (if r.ground_truth_url ∈ r.retrieved_chunks.map Chunk.url then
          a + 1 / (((r.retrieved_chunks.map Chunk.url).indexOf r.ground_truth_url : ℚ) + 1)
        else a) = a + recordRR r
      rw [recordRR]
      by_cases h : r.ground_truth_url ∈ r.retrieved_chunks.map Chunk.url <;> simp [h]),
    zero_add]

/-- `.index` returns the first occurrence: if `a` sits at position `ρ` and
nowhere earlier, its index is `ρ`. -/
lemma indexOf_eq_of_first (l : List String) (a : String) :
    ∀ ρ : ℕ, l[ρ]? = some a → a ∉ l.take ρ → l.indexOf a = ρ := by
  induction l with
  | nil => intro ρ h _; simp at h
  | cons b l' ih =>
    intro ρ h hn
    cases ρ with
    | zero =>
      rw [List.getElem?_cons_zero, Option.some_inj] at h
      rw [h, List.indexOf_cons_self]
    | succ ρ =>
      rw [List.getElem?_cons_succ] at h
      rw [List.take_succ_cons] at hn
      have hne : b ≠ a := fun hba => hn (hba ▸ List.mem_cons_self b _)
      rw [List.indexOf_cons_ne _ hne, ih ρ h (fun hm => hn (List.mem_cons_of_mem _ hm))]

/-! ### The MRR claim -/

/-- C3: `mean_reciprocal_rank` averages the per-record reciprocal ranks;
a record whose ground-truth URL first appears at 1-based rank `ρ + 1`
among its retrieved URLs contributes `1/(ρ + 1)`, a record whose
ground-truth URL is absent contributes `0`, and the empty batch yields `0`
rather than an error. -/
theorem C3_mean_reciprocal_rank (results : List EvalRecord) :
    mean_reciprocal_rank results =
      (if results.isEmpty then 0
       else (results.map recordRR).sum / (results.length : ℚ)) ∧
    (∀ r : EvalRecord, ∀ ρ : ℕ,
      (r.retrieved_chunks.map Chunk.url)[ρ]? = some r.ground_truth_url →
      r.ground_truth_url ∉ (r.retrieved_chunks.map Chunk.url).take ρ →
      recordRR r = 1 / ((ρ : ℚ) + 1)) ∧
    (∀ r : EvalRecord,
      r.ground_truth_url ∉ r.retrieved_chunks.map Chunk.url → recordRR r = 0) ∧
    mean_reciprocal_rank [] = 0 := by
  refine ⟨mean_reciprocal_rank_eq results, ?_, ?_, rfl⟩
  · intro r ρ hget hnot
    have hmem : r.ground_truth_url ∈ r.retrieved_chunks.map Chunk.url := by
      obtain ⟨hlt, heq⟩ := List.getElem?_eq_some.1 hget
      exact heq ▸ List.getElem_mem _
    rw [recordRR]
    simp only [hmem, if_true]
    rw [indexOf_eq_of_first _ _ ρ hget hnot]
  · intro r h
    simp [recordRR, h]

/-! ### Error-taxonomy lemmas -/

/-- On a singleton batch, `semantic_similarity` is one similarity call:
the "mean of one paired similarity" code path. -/
lemma semantic_similarity_singleton (ev : Evaluator) (a g : String) :
    semantic_similarity ev [a] [g] = some (ev.sim a g) := by
  simp [semantic_similarity, listMean]

lemma answer_relevance_singleton (ev : Evaluator) (a q : String) :
    answer_relevance ev [a] [q] = some (ev.sim a q) := by
  simp [answer_relevance, listMean]

lemma bumpOverall_total (e : ErrorCategories) (k : ErrKind) :
    overallTotal (bumpOverall e k) = overallTotal e + 1 := by
  cases k <;> (simp only [bumpOverall, overallTotal]; omega)

lemma bumpCat_total (c : CatErrors) (k : ErrKind) :
    catCellsTotal (bumpCat c k) = catCellsTotal c + 1 := by
  cases k <;> (simp only [bumpCat, catCellsTotal]; omega)

lemma recordStep_byCategoryTotal (ev : Evaluator) (acc : ErrorAnalysisReport)
    (r : EvalRecord) :
    byCategoryTotal (recordStep ev acc r).by_category =
      byCategoryTotal acc.by_category + 1 := by
  cases hc : r.category <;>
    (simp [recordStep, byCategoryTotal, hc, bumpCat_total]; try omega)

lemma error_analysis_overallTotal_aux (ev : Evaluator) (results : List EvalRecord) :
    ∀ acc : ErrorAnalysisReport,
      overallTotal ((results.foldl (recordStep ev) acc).overall) =
        overallTotal acc.overall + results.length := by
  induction results with
  | nil => intro acc; simp
  | cons r rest ih =>
    intro acc
    rw [List.foldl_cons, ih]
    have : (recordStep ev acc r).overall = bumpOverall acc.overall (classifyRecord ev r) := rfl
    rw [this, bumpOverall_total, List.length_cons]
    ring

lemma error_analysis_byCategoryTotal_aux (ev : Evaluator) (results : List EvalRecord) :
    ∀ acc : ErrorAnalysisReport,
      byCategoryTotal ((results.foldl (recordStep ev) acc).by_category) =
        byCategoryTotal acc.by_category + results.length := by
  induction results with
  | nil => intro acc; simp
  | cons r rest ih =>
    intro acc
    rw [List.foldl_cons, ih, recordStep_byCategoryTotal, List.length_cons]
    ring

/-- Each overall counter of `error_analysis` counts the records the
`if/elif` chain sends to it. -/
lemma error_analysis_overall_count (ev : Evaluator) (f : ErrorCategories → ℕ)
    (kind : ErrKind)
    (hb : ∀ e k, f (bumpOverall e k) = f e + (if k = kind then 1 else 0))
    (results : List EvalRecord) :
    ∀ acc : ErrorAnalysisReport,
      f ((results.foldl (recordStep ev) acc).overall) =
        f acc.overall + results.countP (fun x => decide (classifyRecord ev x = kind)) := by
  induction results with
  | nil => intro acc; simp
  | cons r rest ih =>
    intro acc
    rw [List.foldl_cons, ih, List.countP_cons]
    have : (recordStep ev acc r).overall = bumpOverall acc.overall (classifyRecord ev r) := rfl
    rw [this, hb]
    by_cases h : classifyRecord ev r = kind <;> (simp [h]; try ring)

/-! ### The error-taxonomy claim -/

/-- C4: each record is assigned exactly one of the four error categories
by the fixed-priority chain — `retrieval_failure` iff the ground-truth URL
is absent; `generation_hallucination` iff it is present and the semantic
similarity is `< 0.5`; `context_irrelevant` iff those fail and the
relevance is `< 0.5`; `no_error` otherwise — each overall counter counts
exactly the records so classified, the four overall counters sum to the
batch size, and the 16 cells of the per-question-category breakdown also
sum to the batch size (one cell per record). -/
theorem C4_error_taxonomy (ev : Evaluator) (results : List EvalRecord) (r : EvalRecord) :
    (classifyRecord ev r = ErrKind.retrieval ↔
      r.ground_truth_url ∉ r.retrieved_chunks.map Chunk.url) ∧
    (classifyRecord ev r = ErrKind.generation ↔
      r.ground_truth_url ∈ r.retrieved_chunks.map Chunk.url ∧
      ev.sim r.answer r.ground_truth < 1 / 2) ∧
    (classifyRecord ev r = ErrKind.context ↔
      r.ground_truth_url ∈ r.retrieved_chunks.map Chunk.url ∧
      ¬ ev.sim r.answer r.ground_truth < 1 / 2 ∧
      ev.sim r.answer r.query < 1 / 2) ∧
    (classifyRecord ev r = ErrKind.noError ↔
      r.ground_truth_url ∈ r.retrieved_chunks.map Chunk.url ∧
      ¬ ev.sim r.answer r.ground_truth < 1 / 2 ∧
      ¬ ev.sim r.answer r.query < 1 / 2) ∧
    (error_analysis ev results).overall.retrieval_failure =
      results.countP (fun x => decide (classifyRecord ev x = ErrKind.retrieval)) ∧
    (error_analysis ev results).overall.generation_hallucination =
      results.countP (fun x => decide (classifyRecord ev x = ErrKind.generation)) ∧
    (error_analysis ev results).overall.context_irrelevant =
      results.countP (fun x => decide (classifyRecord ev x = ErrKind.context)) ∧
    (error_analysis ev results).overall.no_error =
      results.countP (fun x => decide (classifyRecord ev x = ErrKind.noError)) ∧
    overallTotal (error_analysis ev results).overall = results.length ∧
    byCategoryTotal (error_analysis ev results).by_category = results.length := by
  have hiff : ∀ goalKind : ErrKind, classifyRecord ev r = goalKind ↔
      (if r.ground_truth_url ∉ r.retrieved_chunks.map Chunk.url then ErrKind.retrieval
       else if ev.sim r.answer r.ground_truth < 1 / 2 then ErrKind.generation
       else if ev.sim r.answer r.query < 1 / 2 then ErrKind.context
       else ErrKind.noError) = goalKind := fun _ => Iff.rfl
  refine ⟨?_, ?_, ?_, ?_, ?_, ?_, ?_, ?_, ?_, ?_⟩
  · rw [hiff]
    split_ifs with h1 h2 h3 <;> try simp only [eq_self_iff_true, reduceCtorEq]
    all_goals tauto
  · rw [hiff]
    split_ifs with h1 h2 h3 <;> try simp only [eq_self_iff_true, reduceCtorEq]
    all_goals tauto
  · rw [hiff]
    split_ifs with h1 h2 h3 <;> try simp only [eq_self_iff_true, reduceCtorEq]
    all_goals tauto
  · rw [hiff]
    split_ifs with h1 h2 h3 <;> try simp only [eq_self_iff_true, reduceCtorEq]
    all_goals tauto
  · rw [error_analysis]
    simpa [initErrorReport] using error_analysis_overall_count ev
      (fun e => e.retrieval_failure) ErrKind.retrieval
      (by intro e k; cases k <;> simp [bumpOverall]) results initErrorReport
  · rw [error_analysis]
    simpa [initErrorReport] using error_analysis_overall_count ev
      (fun e => e.generation_hallucination) ErrKind.generation
      (by intro e k; cases k <;> simp [bumpOverall]) results initErrorReport
  · rw [error_analysis]
    simpa [initErrorReport] using error_analysis_overall_count ev
      (fun e => e.context_irrelevant) ErrKind.context
      (by intro e k; cases k <;> simp [bumpOverall]) results initErrorReport
  · rw [error_analysis]
    simpa [initErrorReport] using error_analysis_overall_count ev
      (fun e => e.no_error) ErrKind.noError
      (by intro e k; cases k <;> simp [bumpOverall]) results initErrorReport
  · rw [error_analysis]
    simpa [overallTotal, initErrorReport] using
      error_analysis_overallTotal_aux ev results initErrorReport
  · rw [error_analysis]
    simpa [byCategoryTotal, catCellsTotal, initErrorReport] using
      error_analysis_byCategoryTotal_aux ev results initErrorReport

/-! ### Judge-parser lemmas -/

/-- Closed form of the per-record judge parsing. -/
lemma binTerm_nil (total : ℕ) (i : ℕ) : binTerm [] total i = 0 := by
  simp [binTerm]

lemma eceOf_nil (total : ℕ) : eceOf [] total = 0 := by
  rw [eceOf]
  have h : ∀ x ∈ List.range 10, binTerm [] total x = (fun _ => (0 : ℚ)) x :=
    fun x _ => binTerm_nil total x
  rw [List.map_congr_left h]
  simp

lemma parseJudgeEvaluation_eq (s : String) :
    parseJudgeEvaluation s =
      { scores :=
          match findallNums ((splitLines s).headD "") with
          | n0 :: n1 :: n2 :: n3 :: _ => (n0, n1, n2, n3)
          | _ => (3, 3, 3, 3)
        explanation :=
          if 1 < (splitLines s).length then joinWith " " ((splitLines s).drop 1)
          else "" } := by
  simp only [parseJudgeEvaluation]
  cases h : findallNums ((splitLines s).headD "") with
  | nil => rfl
  | cons n0 t0 =>
    cases t0 with
    | nil => rfl
    | cons n1 t1 =>
      cases t1 with
      | nil => rfl
      | cons n2 t2 =>
        cases t2 with
        | nil => rfl
        | cons n3 t3 => rfl

/-! ### The judge-parser claim -/

/-- C5 (amended): `llm_as_judge` records, per record, the four scores and
the explanation produced by the defensive parse of the (stripped) judge
response; when the first line of a response carries fewer than four
numeric tokens every criterion defaults to `3`, when it carries at least
four the first four are the criteria scores in order, and the recorded
rationale is in every case the space-joined remainder of the response
(empty for a single-line response) — not a parse-failure sentinel. -/
theorem C5_judge_parser_defaults (ev : Evaluator) (results : List EvalRecord) :
    (llm_as_judge ev results).factual_accuracy =
      results.map (fun r => (parseJudgeEvaluation (judgeResponse ev r)).scores.1) ∧
    (llm_as_judge ev results).completeness =
      results.map (fun r => (parseJudgeEvaluation (judgeResponse ev r)).scores.2.1) ∧
    (llm_as_judge ev results).relevance =
      results.map (fun r => (parseJudgeEvaluation (judgeResponse ev r)).scores.2.2.1) ∧
    (llm_as_judge ev results).coherence =
      results.map (fun r => (parseJudgeEvaluation (judgeResponse ev r)).scores.2.2.2) ∧
    (llm_as_judge ev results).explanations =
      results.map (fun r => (parseJudgeEvaluation (judgeResponse ev r)).explanation) ∧
    (∀ s : String, (findallNums ((splitLines s).headD "")).length < 4 →
      (parseJudgeEvaluation s).scores = (3, 3, 3, 3)) ∧
    (∀ (s : String) (n0 n1 n2 n3 : ℕ) (rest : List ℕ),
      findallNums ((splitLines s).headD "") = n0 :: n1 :: n2 :: n3 :: rest →
      (parseJudgeEvaluation s).scores = (n0, n1, n2, n3)) ∧
    (∀ s : String, (parseJudgeEvaluation s).explanation =
      if 1 < (splitLines s).length then joinWith " " ((splitLines s).drop 1) else "") := by
  refine ⟨?_, ?_, ?_, ?_, ?_, ?_, ?_, ?_⟩
  · simp only [llm_as_judge, List.map_map]; rfl
  · simp only [llm_as_judge, List.map_map]; rfl
  · simp only [llm_as_judge, List.map_map]; rfl
  · simp only [llm_as_judge, List.map_map]; rfl
  · simp only [llm_as_judge, List.map_map]; rfl
  · intro s hlen
    rw [parseJudgeEvaluation_eq]
    rcases hnums : findallNums ((splitLines s).headD "") with
        _ | ⟨n0, _ | ⟨n1, _ | ⟨n2, _ | ⟨n3, rest⟩⟩⟩⟩ <;>
      (simp only [hnums]; try rfl)
    rw [hnums] at hlen
    simp only [List.length_cons] at hlen
    omega
  · intro s n0 n1 n2 n3 rest h
    rw [parseJudgeEvaluation_eq]
    simp only [h]
  · intro s
    rw [parseJudgeEvaluation_eq]

/-- C5 (counterexample to the claim as stated): on a judge response with
no numeric token on its first line, the scores do default to `3`, but the
recorded rationale is the joined remainder of the response, not the
`"Parsing failed"` sentinel (which the code writes only in its unreachable
exception handler). -/
theorem C5_counterexample_rationale :
    (llm_as_judge evProse [sampleRecord]).factual_accuracy = [3] ∧
    (llm_as_judge evProse [sampleRecord]).completeness = [3] ∧
    (llm_as_judge evProse [sampleRecord]).relevance = [3] ∧
    (llm_as_judge evProse [sampleRecord]).coherence = [3] ∧
    (llm_as_judge evProse [sampleRecord]).explanations = ["because the output was prose"] ∧
    "because the output was prose" ≠ "Parsing failed" := by
  refine ⟨rfl, rfl, rfl, rfl, rfl, by decide⟩

/-! ### The empty-batch claim -/

/-- C6 (amended): on an empty batch, `mean_reciprocal_rank` returns `0`;
`semantic_similarity` and `answer_relevance` reach the similarity library
with zero samples and fail there (modelled `none`) — the code itself has
no explicit empty-batch check — while `confidence_calibration` does *not*
fail fast: it returns normally, with ECE `0` and empty per-record lists
(its mean statistics are numpy `nan`). -/
theorem C6_empty_batch_behaviour (ev : Evaluator) (gts qs : List String) :
    semantic_similarity ev [] gts = none ∧
    answer_relevance ev [] qs = none ∧
    mean_reciprocal_rank [] = 0 ∧
    (confidence_calibration ev []).expected_calibration_error = 0 ∧
    (confidence_calibration ev []).confidences = [] ∧
    (confidence_calibration ev []).correctness = [] := by
  refine ⟨rfl, rfl, rfl, ?_, rfl, rfl⟩
  exact eceOf_nil 0

/-- C6 (counterexample to the claim as stated): `confidence_calibration`
on an empty batch does not fail fast with an empty-batch error — it
returns, and its ECE field is the number `0`. -/
theorem C6_counterexample_calibration_returns :
    (confidence_calibration evZero []).expected_calibration_error = 0 := by
  exact eceOf_nil 0

/-! ### The confidence-range claim -/

/-- C7 (amended): `confidence_calibration` never clamps; whenever the
similarity collaborator returns values in the cosine range `[-1, 1]`,
every per-record confidence — the plain average of the two similarities —
lies in `[-1, 1]` (and can be negative, see the counterexample). -/
theorem C7_confidence_range (ev : Evaluator) (results : List EvalRecord)
    (h : ∀ a b : String, -1 ≤ ev.sim a b ∧ ev.sim a b ≤ 1) :
    ∀ c ∈ (confidence_calibration ev results).confidences, -1 ≤ c ∧ c ≤ 1 := by
  intro c hc
  have hc2 : c ∈ results.map (recordConfidence ev) := hc
  obtain ⟨r, _, rfl⟩ := List.mem_map.1 hc2
  obtain ⟨h1a, h1b⟩ := h r.answer r.ground_truth
  obtain ⟨h2a, h2b⟩ := h r.answer r.query
  rw [recordConfidence]
  constructor <;> linarith

/-- Witness for C7 at a concrete collaborator pinned to similarity `1/2`:
the record's confidence is `1/2` and lies in `[-1, 1]`. -/
theorem C7_witness : (-1 : ℚ) ≤ 1 / 2 ∧ (1 / 2 : ℚ) ≤ 1 := by
  have hconf : (confidence_calibration evHalf [sampleRecord]).confidences = [1 / 2] := by
    norm_num [confidence_calibration, recordConfidence, evHalf]
  exact C7_confidence_range evHalf [sampleRecord]
    (fun a b => by norm_num [evHalf]) (1 / 2) (hconf ▸ List.mem_singleton.2 rfl)

/-- C7 (counterexample to the claim as stated): with the similarity
collaborator at `-1` — a value inside the cosine range the repository's
own comments document — the recorded confidence is `-1 ∉ [0, 1]`: nothing
is clamped. -/
theorem C7_counterexample_negative_confidence :
    (confidence_calibration evNegOne [sampleRecord]).confidences = [-1] ∧
    ¬ (0 : ℚ) ≤ -1 := by
  constructor
  · norm_num [confidence_calibration, recordConfidence, evNegOne]
  · norm_num

/-! ### Calibration lemmas -/

lemma le_listMean (l : List ℚ) (a : ℚ) (hne : l ≠ []) (h : ∀ x ∈ l, a ≤ x) :
    a ≤ listMean l := by
  have hlen : 0 < (l.length : ℚ) := by exact_mod_cast List.length_pos.2 hne
  rw [listMean, le_div_iff₀ hlen]
  have hs := List.card_nsmul_le_sum l a h
  rwa [nsmul_eq_mul, mul_comm] at hs

lemma listMean_le (l : List ℚ) (b : ℚ) (hne : l ≠ []) (h : ∀ x ∈ l, x ≤ b) :
    listMean l ≤ b := by
  have hlen : 0 < (l.length : ℚ) := by exact_mod_cast List.length_pos.2 hne
  rw [listMean, div_le_iff₀ hlen]
  have hs := List.sum_le_card_nsmul l b h
  rwa [nsmul_eq_mul, mul_comm] at hs

lemma binMask_bounds (i : ℕ) (c : ℚ) (h : binMask i c = true) :
    (i : ℚ) / 10 ≤ c ∧ c < ((i : ℚ) + 1) / 10 := by
  simpa [binMask] using h

/-- A confidence value sits in at most one of the ten bins. -/
lemma binMask_unique (i j : ℕ) (c : ℚ) (hi : binMask i c = true)
    (hj : binMask j c = true) : i = j := by
  obtain ⟨hi1, hi2⟩ := binMask_bounds i c hi
  obtain ⟨hj1, hj2⟩ := binMask_bounds j c hj
  have h1 : (i : ℚ) < (j : ℚ) + 1 := by
    have hc := lt_of_le_of_lt hi1 hj2
    linarith
  have h2 : (j : ℚ) < (i : ℚ) + 1 := by
    have hc := lt_of_le_of_lt hj1 hi2
    linarith
  have h1' : i < j + 1 := by exact_mod_cast h1
  have h2' : j < i + 1 := by exact_mod_cast h2
  omega

lemma binTerm_nonneg (pairs : List (ℚ × ℚ)) (total : ℕ) (i : ℕ) :
    0 ≤ binTerm pairs total i := by
  simp only [binTerm]
  split_ifs with h
  · exact le_refl 0
  · exact mul_nonneg (abs_nonneg _) (div_nonneg (by positivity) (by positivity))

/-- A populated bin's contribution is at most its population share: the
binned confidences lie in `[i/10, (i+1)/10) ⊆ [0, 1)` and the binned
correctness values in `{0, 1}`, so the means differ by at most `1`. -/
lemma binTerm_le_pop (pairs : List (ℚ × ℚ)) (total : ℕ) (i : ℕ) (hi : i < 10)
    (hsnd : ∀ p ∈ pairs, p.2 = 0 ∨ p.2 = 1) :
    binTerm pairs total i ≤
      ((pairs.countP (fun p => binMask i p.1) : ℕ) : ℚ) / (total : ℚ) := by
  rw [List.countP_eq_length_filter]
  simp only [binTerm]
  split_ifs with h
  · positivity
  · have hne : pairs.filter (fun p => binMask i p.1) ≠ [] := by
      intro hx
      exact h (by rw [hx]; rfl)
    have hmapne : (pairs.filter (fun p => binMask i p.1)).map Prod.fst ≠ [] := by
      simpa using hne
    have hmap2ne : (pairs.filter (fun p => binMask i p.1)).map Prod.snd ≠ [] := by
      simpa using hne
    have hm1l : 0 ≤ listMean ((pairs.filter (fun p => binMask i p.1)).map Prod.fst) := by
      apply le_listMean _ _ hmapne
      intro x hx
      obtain ⟨p, hp, rfl⟩ := List.mem_map.1 hx
      have hb := (List.mem_filter.1 hp).2
      have h1 := (binMask_bounds i p.1 hb).1
      have h0 : (0 : ℚ) ≤ (i : ℚ) / 10 := by positivity
      linarith
    have hm1u : listMean ((pairs.filter (fun p => binMask i p.1)).map Prod.fst) ≤ 1 := by
      apply listMean_le _ _ hmapne
      intro x hx
      obtain ⟨p, hp, rfl⟩ := List.mem_map.1 hx
      have hb := (List.mem_filter.1 hp).2
      have h2 := (binMask_bounds i p.1 hb).2
      have hi9 : (i : ℚ) ≤ 9 := by exact_mod_cast Nat.lt_succ_iff.1 hi
      linarith
    have hm2l : 0 ≤ listMean ((pairs.filter (fun p => binMask i p.1)).map Prod.snd) := by
      apply le_listMean _ _ hmap2ne
      intro x hx
      obtain ⟨p, hp, rfl⟩ := List.mem_map.1 hx
      rcases hsnd p (List.mem_of_mem_filter hp) with h0 | h1
      · rw [h0]
      · rw [h1]; norm_num
    have hm2u : listMean ((pairs.filter (fun p => binMask i p.1)).map Prod.snd) ≤ 1 := by
      apply listMean_le _ _ hmap2ne
      intro x hx
      obtain ⟨p, hp, rfl⟩ := List.mem_map.1 hx
      rcases hsnd p (List.mem_of_mem_filter hp) with h0 | h1
      · rw [h0]; norm_num
      · rw [h1]
    have habs : |listMean ((pairs.filter (fun p => binMask i p.1)).map Prod.fst) -
        listMean ((pairs.filter (fun p => binMask i p.1)).map Prod.snd)| ≤ 1 :=
      abs_le.2 ⟨by linarith, by linarith⟩
    exact mul_le_of_le_one_left (by positivity) habs

lemma sum_indicator_eq_countP (idxs : List ℕ) (q : ℕ → Bool) :
    (idxs.map (fun i => if q i then (1 : ℕ) else 0)).sum = idxs.countP q := by
  induction idxs with
  | nil => rfl
  | cons i rest ih =>
    rw [List.map_cons, List.sum_cons, List.countP_cons, ih]
    by_cases h : q i <;> (simp [h]; try omega)

lemma countP_binMask_le_one (idxs : List ℕ) (hnd : idxs.Nodup) (c : ℚ) :
    idxs.countP (fun i => binMask i c) ≤ 1 := by
  induction idxs with
  | nil => simp
  | cons i rest ih =>
    obtain ⟨hni, hrest⟩ := List.nodup_cons.1 hnd
    rw [List.countP_cons]
    by_cases h : binMask i c
    · have hz : rest.countP (fun j => binMask j c) = 0 := by
        rw [List.countP_eq_zero]
        intro j hj hbj
        exact hni (binMask_unique j i c hbj h ▸ hj)
      simp [h, hz]
    · have hih := ih hrest
      simp only [h, Bool.false_eq_true, if_false, add_zero]
      exact hih

/-- Summed over distinct bins, the populations cannot exceed the number of
records: each record falls in at most one bin. -/
lemma sum_counts_le (idxs : List ℕ) (hnd : idxs.Nodup) (pairs : List (ℚ × ℚ)) :
    (idxs.map (fun i => pairs.countP (fun p => binMask i p.1))).sum ≤ pairs.length := by
  induction pairs with
  | nil => simp
  | cons p rest ih =>
    have hstep : (idxs.map (fun i => (p :: rest).countP (fun x => binMask i x.1))).sum =
        (idxs.map (fun i => rest.countP (fun x => binMask i x.1))).sum +
          idxs.countP (fun i => binMask i p.1) := by
      rw [← sum_indicator_eq_countP idxs (fun i => binMask i p.1), ← List.sum_map_add]
      apply congrArg
      apply List.map_congr_left
      intro i _
      rw [List.countP_cons]
    rw [hstep, List.length_cons]
    have h1 := countP_binMask_le_one idxs hnd p.1
    omega

lemma eceOf_nonneg (pairs : List (ℚ × ℚ)) (total : ℕ) : 0 ≤ eceOf pairs total := by
  rw [eceOf]
  apply List.sum_nonneg
  intro x hx
  obtain ⟨i, _, rfl⟩ := List.mem_map.1 hx
  exact binTerm_nonneg pairs total i

lemma eceOf_le_one (pairs : List (ℚ × ℚ)) (total : ℕ) (htot : pairs.length = total)
    (hpos : 0 < total) (hsnd : ∀ p ∈ pairs, p.2 = 0 ∨ p.2 = 1) :
    eceOf pairs total ≤ 1 := by
  have hmain : ∀ idxs : List ℕ, idxs.Nodup → (∀ i ∈ idxs, i < 10) →
      (idxs.map (binTerm pairs total)).sum ≤
        (((idxs.map (fun i => pairs.countP (fun p => binMask i p.1))).sum : ℕ) : ℚ) /
          (total : ℚ) := by
    intro idxs
    induction idxs with
    | nil => intro _ _; simp
    | cons i rest ih =>
      intro hnd h10
      obtain ⟨hni, hrest⟩ := List.nodup_cons.1 hnd
      rw [List.map_cons, List.sum_cons, List.map_cons, List.sum_cons]
      have hterm := binTerm_le_pop pairs total i (h10 i (List.mem_cons_self i rest)) hsnd
      have hrest2 := ih hrest (fun j hj => h10 j (List.mem_cons_of_mem _ hj))
      have hcast : (((pairs.countP (fun p => binMask i p.1) +
          (rest.map (fun j => pairs.countP (fun p => binMask j p.1))).sum : ℕ)) : ℚ) =
          ((pairs.countP (fun p => binMask i p.1) : ℕ) : ℚ) +
            (((rest.map (fun j => pairs.countP (fun p => binMask j p.1))).sum : ℕ) : ℚ) := by
        push_cast
        ring
      rw [hcast, add_div]
      exact add_le_add hterm hrest2
  have h2 := hmain (List.range 10) (List.nodup_range 10) (fun i hi => List.mem_range.1 hi)
  rw [eceOf]
  refine h2.trans ?_
  have h3 : ((List.range 10).map (fun i => pairs.countP (fun p => binMask i p.1))).sum ≤
      total := htot ▸ sum_counts_le (List.range 10) (List.nodup_range 10) pairs
  have hposQ : (0 : ℚ) < (total : ℚ) := by exact_mod_cast hpos
  rw [div_le_one hposQ]
  exact_mod_cast h3

lemma eceOf_eq_zero_of_calibrated (pairs : List (ℚ × ℚ)) (total : ℕ)
    (h : ∀ i ∈ List.range 10, pairs.filter (fun p => binMask i p.1) ≠ [] →
      listMean ((pairs.filter (fun p => binMask i p.1)).map Prod.fst) =
        listMean ((pairs.filter (fun p => binMask i p.1)).map Prod.snd)) :
    eceOf pairs total = 0 := by
  rw [eceOf]
  apply List.sum_eq_zero
  intro x hx
  obtain ⟨i, hi, rfl⟩ := List.mem_map.1 hx
  simp only [binTerm]
  split_ifs with hlen
  · rfl
  · have hne : pairs.filter (fun p => binMask i p.1) ≠ [] := by
      intro hx2
      exact hlen (by rw [hx2]; rfl)
    rw [h i hi hne, sub_self, abs_zero, zero_mul]

/-! ### The ECE claim -/

/-- C8: on every non-empty batch, the Expected Calibration Error of
`confidence_calibration` satisfies `0 ≤ ECE ≤ 1`; an empty bin contributes
`0`; and if every populated bin's mean confidence equals its mean
correctness, the ECE is exactly `0`. -/
theorem C8_ece_bounds (ev : Evaluator) (results : List EvalRecord)
    (hne : results ≠ []) :
    0 ≤ (confidence_calibration ev results).expected_calibration_error ∧
    (confidence_calibration ev results).expected_calibration_error ≤ 1 ∧
    (∀ i : ℕ, (calibPairs ev results).filter (fun p => binMask i p.1) = [] →
      binTerm (calibPairs ev results) results.length i = 0) ∧
    ((∀ i ∈ List.range 10,
        (calibPairs ev results).filter (fun p => binMask i p.1) ≠ [] →
        listMean (((calibPairs ev results).filter (fun p => binMask i p.1)).map Prod.fst) =
          listMean (((calibPairs ev results).filter (fun p => binMask i p.1)).map Prod.snd)) →
      (confidence_calibration ev results).expected_calibration_error = 0) := by
  have hece : (confidence_calibration ev results).expected_calibration_error =
      eceOf (calibPairs ev results) results.length := rfl
  have hlen : (calibPairs ev results).length = results.length := by
    simp [calibPairs, confidence_calibration]
  have hsnd : ∀ p ∈ calibPairs ev results, p.2 = 0 ∨ p.2 = 1 := by
    intro p hp
    have h2 : p.2 ∈ results.map
        (fun r => if 7 / 10 < ev.sim r.answer r.ground_truth then (1 : ℚ) else 0) :=
      (List.of_mem_zip hp).2
    obtain ⟨r, _, hr⟩ := List.mem_map.1 h2
    by_cases hgt : 7 / 10 < ev.sim r.answer r.ground_truth
    · right; rw [← hr]; simp [hgt]
    · left; rw [← hr]; simp [hgt]
  have hpos : 0 < results.length := List.length_pos.2 hne
  refine ⟨?_, ?_, ?_, ?_⟩
  · rw [hece]
    exact eceOf_nonneg _ _
  · rw [hece]
    exact eceOf_le_one _ _ hlen hpos hsnd
  · intro i h
    simp [binTerm, h]
  · intro hcal
    rw [hece]
    exact eceOf_eq_zero_of_calibrated _ _ hcal

/-- Witness for C8 on a concrete non-empty batch. -/
theorem C8_witness :
    0 ≤ (confidence_calibration evHalf [sampleRecord]).expected_calibration_error ∧
    (confidence_calibration evHalf [sampleRecord]).expected_calibration_error ≤ 1 :=
  ⟨(C8_ece_bounds evHalf [sampleRecord] (by simp)).1,
    (C8_ece_bounds evHalf [sampleRecord] (by simp)).2.1⟩

/-! ### The pipeline-placeholder claim -/

/-- C10: every retrieved chunk the evaluation pipeline hands to the
metrics engine carries the constant URL `'placeholder'`; hence, for any QA
batch in which no ground-truth URL equals `'placeholder'`, every record is
a retrieval miss: `mean_reciprocal_rank` is `0` and `error_analysis`
classifies every record as a retrieval failure. -/
theorem C10_placeholder_pipeline (ev : Evaluator) (rag : String → RagAnswer)
    (qa_data : List QAItem)
    (h : ∀ qa ∈ qa_data, qa.source_url ≠ "placeholder") :
    (∀ r ∈ runEvaluationRecords rag qa_data,
      ∀ ch ∈ r.retrieved_chunks, ch.url = "placeholder") ∧
    (∀ r ∈ runEvaluationRecords rag qa_data,
      classifyRecord ev r = ErrKind.retrieval) ∧
    mean_reciprocal_rank (runEvaluationRecords rag qa_data) = 0 ∧
    (error_analysis ev (runEvaluationRecords rag qa_data)).overall =
      ⟨(runEvaluationRecords rag qa_data).length, 0, 0, 0⟩ := by
  have key : ∀ r ∈ runEvaluationRecords rag qa_data,
      (∀ ch ∈ r.retrieved_chunks, ch.url = "placeholder") ∧
      classifyRecord ev r = ErrKind.retrieval ∧ recordRR r = 0 := by
    intro r hr
    obtain ⟨qa, hqa, rfl⟩ := List.mem_map.1 hr
    have hch : ∀ ch ∈ (buildEvalRecord qa (rag qa.question)).retrieved_chunks,
        ch.url = "placeholder" := by
      intro ch hchm
      obtain ⟨c, _, rfl⟩ := List.mem_map.1 hchm
      rfl
    have hnm : (buildEvalRecord qa (rag qa.question)).ground_truth_url ∉
        (buildEvalRecord qa (rag qa.question)).retrieved_chunks.map Chunk.url := by
      intro hmem
      obtain ⟨ch, hchm, hequ⟩ := List.mem_map.1 hmem
      have h1 : ch.url = "placeholder" := hch ch hchm
      exact h qa hqa (by rw [show qa.source_url =
        (buildEvalRecord qa (rag qa.question)).ground_truth_url from rfl, ← hequ, h1])
    refine ⟨hch, ?_, ?_⟩
    · simp [classifyRecord, hnm]
    · simp [recordRR, hnm]
  refine ⟨fun r hr => (key r hr).1, fun r hr => (key r hr).2.1, ?_, ?_⟩
  · rw [mean_reciprocal_rank_eq]
    by_cases hcase : (runEvaluationRecords rag qa_data).isEmpty
    · simp [hcase]
    · have hsum : ((runEvaluationRecords rag qa_data).map recordRR).sum = 0 := by
        apply List.sum_eq_zero
        intro x hx
        obtain ⟨r, hr, rfl⟩ := List.mem_map.1 hx
        exact (key r hr).2.2
      simp [hcase, hsum]
  · have hrf := error_analysis_overall_count ev (fun e => e.retrieval_failure)
      ErrKind.retrieval (by intro e k; cases k <;> simp [bumpOverall])
      (runEvaluationRecords rag qa_data) initErrorReport
    have hgh := error_analysis_overall_count ev (fun e => e.generation_hallucination)
      ErrKind.generation (by intro e k; cases k <;> simp [bumpOverall])
      (runEvaluationRecords rag qa_data) initErrorReport
    have hci := error_analysis_overall_count ev (fun e => e.context_irrelevant)
      ErrKind.context (by intro e k; cases k <;> simp [bumpOverall])
      (runEvaluationRecords rag qa_data) initErrorReport
    have hno := error_analysis_overall_count ev (fun e => e.no_error)
      ErrKind.noError (by intro e k; cases k <;> simp [bumpOverall])
      (runEvaluationRecords rag qa_data) initErrorReport
    have hcount1 : (runEvaluationRecords rag qa_data).countP
        (fun x => decide (classifyRecord ev x = ErrKind.retrieval)) =
        (runEvaluationRecords rag qa_data).length := by
      rw [List.countP_eq_length]
      intro r hr
      simp [(key r hr).2.1]
    have hzero : ∀ kind : ErrKind, kind ≠ ErrKind.retrieval →
        (runEvaluationRecords rag qa_data).countP
          (fun x => decide (classifyRecord ev x = kind)) = 0 := by
      intro kind hk
      rw [List.countP_eq_zero]
      intro r hr
      simp [(key r hr).2.1, Ne.symm hk]
    have heta : (error_analysis ev (runEvaluationRecords rag qa_data)).overall =
        ⟨(error_analysis ev (runEvaluationRecords rag qa_data)).overall.retrieval_failure,
          (error_analysis ev (runEvaluationRecords rag qa_data)).overall.generation_hallucination,
          (error_analysis ev (runEvaluationRecords rag qa_data)).overall.context_irrelevant,
          (error_analysis ev (runEvaluationRecords rag qa_data)).overall.no_error⟩ := rfl
    rw [heta, error_analysis]
    rw [hrf, hgh, hci, hno, hcount1, hzero ErrKind.generation (by intro hx; cases hx),
      hzero ErrKind.context (by intro hx; cases hx),
      hzero ErrKind.noError (by intro hx; cases hx)]
    simp [initErrorReport]

/-- Witness for C10 on a one-item QA batch with a real source URL. -/
theorem C10_witness :
    mean_reciprocal_rank (runEvaluationRecords ragSample [qaSample]) = 0 ∧
    (error_analysis evZero (runEvaluationRecords ragSample [qaSample])).overall =
      ⟨1, 0, 0, 0⟩ := by
  have h := C10_placeholder_pipeline evZero ragSample [qaSample] (by decide)
  exact ⟨h.2.2.1, h.2.2.2⟩

end RagSpec
